import Mathlib

/-!
Verification of the wbia-plugin-tbd repository: a shallow embedding of the
plugin's scoring engine (`src/wbia_tbd/_plugin.py`), its embedding cache, the
MiewID embedding model (`src/wbia_miew_id/models/model.py`) and the training
setup (`src/wbia_miew_id/train.py`), together with theorems settling the
frozen specification claims.

Modelling conventions:
* Python floats and `np.float64` values carry exact rational payloads here;
  `NpF` models an `np.float64` scalar including the IEEE special values that
  numpy produces on division by zero (numpy emits a `RuntimeWarning` and
  returns `inf`/`-inf`/`nan`; it does not raise `ZeroDivisionError`).
* The WBIA controller (`ibs`) is external to the repository; the annotation
  accessors the plugin calls on it are modelled as the fields of `IBS`.
* Fallible Python code (index errors, shape errors, missing dict keys) is
  modelled with `Option`/`Except`.
-/

/-- Model of a numpy `np.float64` scalar: either a finite value (exact
rational payload) or one of the IEEE special values.  The plugin's scores are
`np.float64` because `distance_to_score` wraps its result in `np.float64`
(`_plugin.py` line 601). -/
inductive NpF where
  | fin (q : ℚ)
  | inf
  | ninf
  | nan
deriving DecidableEq

/-- Division of an `np.float64` score by a Python `int` count, with numpy
semantics at zero: `x / 0` is `inf`, `-inf` or `nan` according to the sign of
`x` (numpy prints a divide-by-zero `RuntimeWarning` but returns normally). -/
def NpF.divNat (x : NpF) (k : ℕ) : NpF :=
  match x with
  | NpF.fin q =>
      if k = 0 then (if 0 < q then NpF.inf else if q < 0 then NpF.ninf else NpF.nan)
      else NpF.fin (q / k)
  | NpF.inf => NpF.inf
  | NpF.ninf => NpF.ninf
  | NpF.nan => NpF.nan

/-- IEEE addition of two `np.float64` values. -/
def NpF.add (x y : NpF) : NpF :=
  match x, y with
  | NpF.fin a, NpF.fin b => NpF.fin (a + b)
  | NpF.nan, _ => NpF.nan
  | _, NpF.nan => NpF.nan
  | NpF.inf, NpF.ninf => NpF.nan
  | NpF.ninf, NpF.inf => NpF.nan
  | NpF.inf, _ => NpF.inf
  | _, NpF.inf => NpF.inf
  | NpF.ninf, _ => NpF.ninf
  | _, NpF.ninf => NpF.ninf

/-- Sum of a list of `np.float64` values (the `0.0`-based fold used by
`np.sum` on scores). -/
def npSum (l : List NpF) : NpF := l.foldr NpF.add (NpF.fin 0)

/-- An embedding vector (row of `np.ndarray`), exact-rational model. -/
abbrev Emb := List ℚ

/-- The slice of the external WBIA controller state that the plugin reads.
`nameOf` models `ibs.get_annot_name_texts`, `uuidOf` models
`ibs.get_annot_semantic_uuids` (rendered through `str`), and `embOf` models
the whole per-annotation model pipeline of `tbd_compute_embedding`
(config + checkpoint + dataloader + network forward), which lives outside
the scoring logic under verification. -/
structure IBS where
  nameOf : ℕ → String
  uuidOf : ℕ → String
  embOf : ℕ → Emb

/-- The `wbia.constants.UNKNOWN` sentinel name (an interned constant string
in the host; its exact text is irrelevant to the claims). -/
def UNKNOWN : String := "____"

/-- `distance_to_score` at `_plugin.py` lines 599-602: for a cosine distance
`d` return `(2 - d) / 2`; the `np.float64` wrap preserves the value. -/
def distance_to_score (distance : ℚ) : ℚ := (2 - distance) / 2

namespace wbia_plugin_tbd

/-- The local `distance_to_score` defined inside `wbia_plugin_tbd`
(`_plugin.py` lines 277-279), applied on the `use_knn = False` path:
`score = 1 - distance`. -/
def distance_to_score (distance : ℚ) : ℚ := 1 - distance

end wbia_plugin_tbd

/-- Per-annotation label used by `_db_labels_for_tbd`: the annotation's name
text, except that an annotation whose name is the `UNKNOWN` sentinel gets the
fallback label `UNKNOWN + str(semantic_uuid)` (`_plugin.py` lines 580-589). -/
def db_label_for_tbd (ibs : IBS) (aid : ℕ) : String :=
  if ibs.nameOf aid = UNKNOWN then UNKNOWN ++ ibs.uuidOf aid else ibs.nameOf aid

/-- `_db_labels_for_tbd` (`_plugin.py` lines 580-589): the label list of a
database annotation list. -/
def _db_labels_for_tbd (ibs : IBS) (daid_list : List ℕ) : List String :=
  daid_list.map (db_label_for_tbd ibs)

/-- The dict comprehension inside `aid_scores_from_name_scores`
(`_plugin.py` lines 615-622), with `name_count_dict` inlined:
`{name: name_score_dict[name] / daid_name_list.count(name) for name in
name_score_dict}`.  The division is `np.float64 / int`. -/
def name_annotwise_score_dict (name_score_dict : List (String × NpF))
    (daid_name_list : List String) : List (String × NpF) :=
  name_score_dict.map (fun p => (p.1, p.2.divNat (daid_name_list.count p.1)))

/-- `aid_scores_from_name_scores` (`_plugin.py` lines 612-630): per-name
scores divided by the name's database-annotation count, then read back per
annotation through a `defaultdict(float)` (missing names score `0.0`). -/
def aid_scores_from_name_scores (ibs : IBS) (name_score_dict : List (String × NpF))
    (daid_list : List ℕ) : List NpF :=
  let daid_name_list := _db_labels_for_tbd ibs daid_list
  let d := name_annotwise_score_dict name_score_dict daid_name_list
  daid_name_list.map (fun name => (d.lookup name).getD (NpF.fin 0))

/-- The final yield loop of `wbia_plugin_tbd` (`_plugin.py` lines 312-318):
for each `(qaid, daid)` parent pair, yield `0.0` on a self-match and
otherwise `qaid_score_dict.get(qaid, {}).get(daid)` (which is `None` when
absent). -/
def wbia_plugin_tbd_pair_scores (qaid_score_dict : List (ℕ × List (ℕ × NpF)))
    (pairs : List (ℕ × ℕ)) : List (Option NpF) :=
  pairs.map (fun qd =>
    if qd.1 = qd.2 then some (NpF.fin 0)
    else ((qaid_score_dict.lookup qd.1).getD []).lookup qd.2)

/-- Positions of a given name in the label list, paired with the score at the
same position: the per-annotation scores belonging to one identity (used to
state the conservation law of the spec). -/
def scores_for_name (labels : List String) (scores : List NpF) (name : String) :
    List NpF :=
  (labels.zip scores).filterMap (fun p => if p.1 = name then some p.2 else none)

/-- Claim C1 (counterexample): the conversion applied on the
`use_knn = False` path is *not* the `(2 - d) / 2` mapping; at distance `2` it
yields `-1`, not `0`. -/
theorem distance_to_score_use_knn_false_counterexample :
    wbia_plugin_tbd.distance_to_score 2 ≠ (2 - 2) / 2 ∧
    wbia_plugin_tbd.distance_to_score 2 = -1 := by
  constructor <;> norm_num [wbia_plugin_tbd.distance_to_score]

/-- Claim C1 (amended): the module-level `distance_to_score` used for name
scoring maps every distance `d` to `(2 - d) / 2`, is monotonically
non-increasing, and satisfies `score 0 = 1` and `score 2 = 0` exactly; the
variant applied when `use_knn` is false instead maps `d` to `1 - d`, which is
also monotonically non-increasing with `score 0 = 1` but has `score 2 = -1`. -/
theorem distance_to_score_properties :
    (∀ d : ℚ, distance_to_score d = (2 - d) / 2) ∧
    distance_to_score 0 = 1 ∧
    distance_to_score 2 = 0 ∧
    (∀ d1 d2 : ℚ, d1 ≤ d2 → distance_to_score d2 ≤ distance_to_score d1) ∧
    (∀ d : ℚ, wbia_plugin_tbd.distance_to_score d = 1 - d) ∧
    wbia_plugin_tbd.distance_to_score 0 = 1 ∧
    wbia_plugin_tbd.distance_to_score 2 = -1 ∧
    (∀ d1 d2 : ℚ, d1 ≤ d2 →
      wbia_plugin_tbd.distance_to_score d2 ≤ wbia_plugin_tbd.distance_to_score d1) := by
  refine ⟨fun d => rfl, by norm_num [distance_to_score], by norm_num [distance_to_score],
    fun d1 d2 h => ?_, fun d => rfl,
    by norm_num [wbia_plugin_tbd.distance_to_score],
    by norm_num [wbia_plugin_tbd.distance_to_score],
    fun d1 d2 h => ?_⟩
  · unfold distance_to_score
    linarith
  · unfold wbia_plugin_tbd.distance_to_score
    linarith

/-- Witness for `distance_to_score_properties`: the monotonicity parts applied
at the concrete distances `0 ≤ 1`. -/
theorem distance_to_score_properties_witness :
    ((0 : ℚ) ≤ 1) ∧ distance_to_score 1 ≤ distance_to_score 0 ∧
      wbia_plugin_tbd.distance_to_score 1 ≤ wbia_plugin_tbd.distance_to_score 0 :=
  ⟨by norm_num, distance_to_score_properties.2.2.2.1 0 1 (by norm_num),
    distance_to_score_properties.2.2.2.2.2.2.2 0 1 (by norm_num)⟩

/-- Looking a name up in the annotwise dict of `aid_scores_from_name_scores`
is looking it up in `name_score_dict` and dividing by its label count. -/
theorem lookup_name_annotwise (nsd : List (String × NpF)) (labels : List String)
    (k : String) :
    (name_annotwise_score_dict nsd labels).lookup k =
      (nsd.lookup k).map (fun s => s.divNat (labels.count k)) := by
  induction nsd with
  | nil => rfl
  | cons p rest ih =>
    cases hbe : (k == p.1) with
    | true =>
      have hk : k = p.1 := by simpa using hbe
      simp [name_annotwise_score_dict, List.lookup, hbe, hk]
    | false =>
      simpa [name_annotwise_score_dict, List.lookup, hbe] using ih

/-- The scores that `scores_for_name` collects out of a label-indexed map are
`count`-many copies of the map's value at that name. -/
theorem scores_for_name_map_eq (labels : List String) (g : String → NpF)
    (name : String) :
    scores_for_name labels (labels.map g) name =
      List.replicate (labels.count name) (g name) := by
  induction labels with
  | nil => rfl
  | cons a l ih =>
    by_cases h : a = name
    · subst h
      simp [scores_for_name, List.count_cons, List.replicate_succ] at *
      simpa [scores_for_name] using ih
    · simp [scores_for_name, List.count_cons, h, Ne.symm h] at *
      simpa [scores_for_name] using ih

/-- Summing `k` copies of the finite value `c` gives `k * c`. -/
theorem npSum_replicate_fin (k : ℕ) (c : ℚ) :
    npSum (List.replicate k (NpF.fin c)) = NpF.fin (k * c) := by
  induction k with
  | zero => simp [npSum]
  | succ n ih =>
    rw [List.replicate_succ]
    show NpF.add (NpF.fin c) (npSum (List.replicate n (NpF.fin c))) = _
    rw [ih]
    show NpF.fin (c + n * c) = NpF.fin ((n + 1 : ℕ) * c)
    congr 1
    push_cast
    ring

/-- Claim C3: `aid_scores_from_name_scores` returns one score per database
annotation; an annotation whose identity is scored `s` in the name-score
mapping receives exactly `s / k`, `k` being the number of database
annotations sharing its identity; an annotation whose identity is absent from
the mapping receives `0`; and the scores over one identity's annotations sum
back to that identity's raw score. -/
theorem aid_scores_from_name_scores_correct (ibs : IBS)
    (nsd : List (String × NpF)) (daids : List ℕ) :
    (aid_scores_from_name_scores ibs nsd daids).length = daids.length ∧
    (∀ i (hi : i < daids.length) (q : ℚ),
      nsd.lookup (db_label_for_tbd ibs (daids.get ⟨i, hi⟩)) = some (NpF.fin q) →
      ∀ hr : i < (aid_scores_from_name_scores ibs nsd daids).length,
        (aid_scores_from_name_scores ibs nsd daids).get ⟨i, hr⟩ =
          NpF.fin (q / ((_db_labels_for_tbd ibs daids).count
            (db_label_for_tbd ibs (daids.get ⟨i, hi⟩))))) ∧
    (∀ i (hi : i < daids.length),
      nsd.lookup (db_label_for_tbd ibs (daids.get ⟨i, hi⟩)) = none →
      ∀ hr : i < (aid_scores_from_name_scores ibs nsd daids).length,
        (aid_scores_from_name_scores ibs nsd daids).get ⟨i, hr⟩ = NpF.fin 0) ∧
    (∀ (name : String) (q : ℚ), nsd.lookup name = some (NpF.fin q) →
      0 < (_db_labels_for_tbd ibs daids).count name →
      npSum (scores_for_name (_db_labels_for_tbd ibs daids)
        (aid_scores_from_name_scores ibs nsd daids) name) = NpF.fin q) := by
  have hout : aid_scores_from_name_scores ibs nsd daids =
      (_db_labels_for_tbd ibs daids).map (fun name =>
        ((name_annotwise_score_dict nsd (_db_labels_for_tbd ibs daids)).lookup
          name).getD (NpF.fin 0)) := rfl
  have hlen : (aid_scores_from_name_scores ibs nsd daids).length = daids.length := by
    rw [hout]
    simp [_db_labels_for_tbd]
  have hlab : ∀ i (hi : i < daids.length),
      ∀ hl : i < (_db_labels_for_tbd ibs daids).length,
      (_db_labels_for_tbd ibs daids).get ⟨i, hl⟩ =
        db_label_for_tbd ibs (daids.get ⟨i, hi⟩) := by
    intro i hi hl
    simp [_db_labels_for_tbd, List.get_eq_getElem, List.getElem_map]
  have hget : ∀ i (hi : i < daids.length)
      (hr : i < (aid_scores_from_name_scores ibs nsd daids).length),
      (aid_scores_from_name_scores ibs nsd daids).get ⟨i, hr⟩ =
        ((name_annotwise_score_dict nsd (_db_labels_for_tbd ibs daids)).lookup
          (db_label_for_tbd ibs (daids.get ⟨i, hi⟩))).getD (NpF.fin 0) := by
    intro i hi hr
    have hl : i < (_db_labels_for_tbd ibs daids).length := by
      simpa [_db_labels_for_tbd] using hi
    rw [List.get_of_eq hout ⟨i, hr⟩]
    rw [List.get_eq_getElem, List.getElem_map]
    rw [← List.get_eq_getElem (_db_labels_for_tbd ibs daids) ⟨i, hl⟩]
    rw [hlab i hi hl]
  refine ⟨hlen, ?_, ?_, ?_⟩
  · intro i hi q hq hr
    have hcountpos : 0 < (_db_labels_for_tbd ibs daids).count
        (db_label_for_tbd ibs (daids.get ⟨i, hi⟩)) := by
      rw [List.count_pos_iff]
      have hl : i < (_db_labels_for_tbd ibs daids).length := by
        simpa [_db_labels_for_tbd] using hi
      rw [← hlab i hi hl]
      exact List.get_mem _ _ _
    rw [hget i hi hr, lookup_name_annotwise, hq]
    simp only [Option.map_some', Option.getD_some]
    rw [NpF.divNat, if_neg (Nat.pos_iff_ne_zero.mp hcountpos)]
  · intro i hi hq hr
    rw [hget i hi hr, lookup_name_annotwise, hq]
    rfl
  · intro name q hq hcount
    have hk0 : (_db_labels_for_tbd ibs daids).count name ≠ 0 :=
      Nat.pos_iff_ne_zero.mp hcount
    rw [hout, scores_for_name_map_eq]
    rw [lookup_name_annotwise, hq]
    simp only [Option.map_some', Option.getD_some]
    rw [NpF.divNat, if_neg hk0, npSum_replicate_fin]
    congr 1
    rw [mul_comm, div_mul_cancel₀]
    exact Nat.cast_ne_zero.mpr hk0

/-- A tiny concrete controller state: annotations 1 and 2 are named "a",
annotation 3 is named "b"; no unknown names. -/
def ibs1 : IBS where
  nameOf := fun a => if a = 3 then "b" else "a"
  uuidOf := fun _ => "u"
  embOf := fun _ => []

/-- Witness for `aid_scores_from_name_scores_correct`: with database
annotations `[1, 2, 3]` labelled `["a", "a", "b"]` and the identity "a"
raw-scored `6`, annotation 1 receives `6 / 2 = 3` and the two "a"
annotations sum back to `6`. -/
theorem aid_scores_from_name_scores_correct_witness :
    (aid_scores_from_name_scores ibs1 [("a", NpF.fin 6)] [1, 2, 3]).length = 3 ∧
    (aid_scores_from_name_scores ibs1 [("a", NpF.fin 6)] [1, 2, 3]).get
      ⟨0, by decide⟩ = NpF.fin 3 ∧
    npSum (scores_for_name (_db_labels_for_tbd ibs1 [1, 2, 3])
      (aid_scores_from_name_scores ibs1 [("a", NpF.fin 6)] [1, 2, 3]) "a") =
      NpF.fin 6 := by
  obtain ⟨h1, h2, h3, h4⟩ :=
    aid_scores_from_name_scores_correct ibs1 [("a", NpF.fin 6)] [1, 2, 3]
  refine ⟨by simpa using h1, ?_, ?_⟩
  · have := h2 0 (by norm_num) 6 (by decide) (by decide)
    rw [this]
    show NpF.fin (6 / ((2 : ℕ) : ℚ)) = NpF.fin 3
    norm_num
  · exact h4 "a" 6 (by decide) (by decide)

/-- A concrete controller state in which every annotation is named "r". -/
def ibsB : IBS where
  nameOf := fun _ => "r"
  uuidOf := fun _ => "u"
  embOf := fun _ => []

/-- Claim C10 (counterexample): with a name-score mapping containing the key
"g" that labels zero database annotations, `aid_scores_from_name_scores`
does not fail; it returns a normal score list.  (The internal division of
"g"'s `np.float64` score by the zero count yields `inf` with a numpy
`RuntimeWarning`, not a `ZeroDivisionError`.) -/
theorem aid_scores_zero_count_counterexample :
    aid_scores_from_name_scores ibsB
      [("g", NpF.fin 1), ("r", NpF.fin 4)] [5, 5] = [NpF.fin 2, NpF.fin 2] := by
  simp [aid_scores_from_name_scores, name_annotwise_score_dict, _db_labels_for_tbd,
    db_label_for_tbd, ibsB, UNKNOWN, NpF.divNat, List.lookup, List.count_cons]
  norm_num

/-- Claim C10 (amended): when a key of the name-score mapping labels zero
database annotations, its per-name normalization does divide by the zero
count, producing an `inf` entry in the internal annotwise dict (numpy
division semantics); the operation nevertheless returns one score per
database annotation rather than failing, and the `inf` value is never
assigned to any annotation because no annotation bears that identity. -/
theorem aid_scores_zero_count_returns (ibs : IBS) (nsd : List (String × NpF))
    (daids : List ℕ) (k : String) (q : ℚ)
    (hq : 0 < q) (hl : nsd.lookup k = some (NpF.fin q))
    (hc : (_db_labels_for_tbd ibs daids).count k = 0) :
    (name_annotwise_score_dict nsd (_db_labels_for_tbd ibs daids)).lookup k =
      some NpF.inf ∧
    (aid_scores_from_name_scores ibs nsd daids).length = daids.length := by
  constructor
  · rw [lookup_name_annotwise, hl]
    simp [NpF.divNat, hc, hq]
  · show (List.map _ _).length = _
    simp [_db_labels_for_tbd]

/-- Witness for `aid_scores_zero_count_returns`: the concrete counterexample
instance, where the key "g" labels zero of the two database annotations. -/
theorem aid_scores_zero_count_returns_witness :
    (name_annotwise_score_dict [("g", NpF.fin 1), ("r", NpF.fin 4)]
      (_db_labels_for_tbd ibsB [5, 5])).lookup "g" = some NpF.inf ∧
    (aid_scores_from_name_scores ibsB
      [("g", NpF.fin 1), ("r", NpF.fin 4)] [5, 5]).length = 2 :=
  aid_scores_zero_count_returns ibsB [("g", NpF.fin 1), ("r", NpF.fin 4)]
    [5, 5] "g" 1 (by norm_num) (by decide) (by decide)

/-- Claim C4: in the final loop of `wbia_plugin_tbd`, a pair whose query and
database annotation ids coincide is scored exactly `0.0`, whatever the score
dictionary holds for that pair. -/
theorem self_match_score_zero (qaid_score_dict : List (ℕ × List (ℕ × NpF)))
    (pairs : List (ℕ × ℕ)) (i : ℕ) (hi : i < pairs.length)
    (hself : (pairs.get ⟨i, hi⟩).1 = (pairs.get ⟨i, hi⟩).2) :
    ∀ hr : i < (wbia_plugin_tbd_pair_scores qaid_score_dict pairs).length,
      (wbia_plugin_tbd_pair_scores qaid_score_dict pairs).get ⟨i, hr⟩ =
        some (NpF.fin 0) := by
  intro hr
  have hout : wbia_plugin_tbd_pair_scores qaid_score_dict pairs =
      pairs.map (fun qd =>
        if qd.1 = qd.2 then some (NpF.fin 0)
        else ((qaid_score_dict.lookup qd.1).getD []).lookup qd.2) := rfl
  rw [List.get_of_eq hout ⟨i, hr⟩]
  rw [List.get_eq_getElem, List.getElem_map]
  rw [← List.get_eq_getElem pairs ⟨i, hi⟩]
  rw [if_pos hself]

/-- Witness for `self_match_score_zero`: the pair `(1, 1)` is forced to score
`0.0` even though the dictionary stores `9` for it. -/
theorem self_match_score_zero_witness :
    (wbia_plugin_tbd_pair_scores [(1, [(1, NpF.fin 9)])] [(1, 1)]).get
      ⟨0, by decide⟩ = some (NpF.fin 0) :=
  self_match_score_zero [(1, [(1, NpF.fin 9)])] [(1, 1)] 0 (by decide)
    (by decide) (by decide)

/-- `tbd_compute_embedding` (`_plugin.py` lines 144-172).  Its first
statement reads `aid_list[0]` to look the species up, so an empty annotation
list raises an `IndexError` (modelled as `none`).  On a non-empty list the
config/model/dataloader machinery (external to the scoring logic, abstracted
by `IBS.embOf`) produces one embedding row per annotation, in order
(`shuffle=False`, `drop_last=False`, `np.concatenate`). -/
def tbd_compute_embedding (ibs : IBS) (aid_list : List ℕ) : Option (List Emb) :=
  match aid_list with
  | [] => none
  | _ :: _ => some (aid_list.map ibs.embOf)

/-- Sequential insertion of computed embeddings into the global cache:
`for dirty_aid, dirty_embedding in zip(...): cache[dirty_aid] = ...`
(`_plugin.py` lines 113-114). -/
def cache_insert_all (cache : ℕ → Option Emb) : List (ℕ × Emb) → (ℕ → Option Emb)
  | [] => cache
  | p :: rest => cache_insert_all (fun a => if a = p.1 then some p.2 else cache a) rest

/-- `ut.take(cache, aid_list)` (`_plugin.py` line 116): index the cache at
each id in order; a missing key raises `KeyError` (`none`). -/
def ut_take (cache : ℕ → Option Emb) : List ℕ → Option (List Emb)
  | [] => some []
  | a :: rest =>
    match cache a, ut_take cache rest with
    | some e, some es => some (e :: es)
    | _, _ => none

/-- `tbd_embedding` (`_plugin.py` lines 96-118): collect the ids missing
from the process-wide cache, compute all of them in one call when any exist
(the `use_depc` branch reaches `tbd_compute_embedding` through the
`TbdEmbedding` dependency-cache table, the other branch calls it directly),
insert them, and read every requested id back from the cache.  The third
component counts the embedding-computation calls issued (0 or 1). -/
def tbd_embedding (ibs : IBS) (cache : ℕ → Option Emb) (aid_list : List ℕ) :
    Option (List Emb) × (ℕ → Option Emb) × ℕ :=
  let dirty_aids := aid_list.filter (fun aid => (cache aid).isNone)
  if 0 < dirty_aids.length then
    match tbd_compute_embedding ibs dirty_aids with
    | none => (none, cache, 1)
    | some dirty_embeddings =>
      let cache2 := cache_insert_all cache (dirty_aids.zip dirty_embeddings)
      (ut_take cache2 aid_list, cache2, 1)
  else
    (ut_take cache aid_list, cache, 0)

/-- Inserting pairs whose keys avoid `a` leaves the cache at `a` unchanged. -/
theorem cache_insert_all_not_mem (l : List (ℕ × Emb)) (cache : ℕ → Option Emb)
    (a : ℕ) (h : a ∉ l.map Prod.fst) : cache_insert_all cache l a = cache a := by
  induction l generalizing cache with
  | nil => rfl
  | cons p rest ih =>
    simp only [List.map_cons, List.mem_cons] at h
    push_neg at h
    rw [cache_insert_all, ih _ h.2]
    simp [h.1]

/-- After insertion, every inserted key holds a value. -/
theorem cache_insert_all_isSome_of_mem (l : List (ℕ × Emb))
    (cache : ℕ → Option Emb) (a : ℕ) (h : a ∈ l.map Prod.fst) :
    (cache_insert_all cache l a).isSome := by
  induction l generalizing cache with
  | nil => simp at h
  | cons p rest ih =>
    rw [cache_insert_all]
    by_cases hmem : a ∈ rest.map Prod.fst
    · exact ih _ hmem
    · simp only [List.map_cons, List.mem_cons] at h
      rcases h with h | h
      · rw [cache_insert_all_not_mem rest _ a hmem]
        simp [h]
      · exact absurd h hmem
/-- Insertion never erases a cached value's presence. -/
theorem cache_insert_all_isSome_mono (l : List (ℕ × Emb))
    (cache : ℕ → Option Emb) (a : ℕ) (h : (cache a).isSome) :
    (cache_insert_all cache l a).isSome := by
  induction l generalizing cache with
  | nil => exact h
  | cons p rest ih =>
    rw [cache_insert_all]
    apply ih
    by_cases ha : a = p.1 <;> simp [ha, h]

/-- When every id is present, `ut.take` succeeds and returns the cached
values in id order. -/
theorem ut_take_eq_map (cache : ℕ → Option Emb) (l : List ℕ)
    (h : ∀ a ∈ l, (cache a).isSome) :
    ut_take cache l = some (l.map (fun a => (cache a).getD [])) := by
  induction l with
  | nil => rfl
  | cons a rest ih =>
    have ha : (cache a).isSome := h a (List.mem_cons_self a rest)
    obtain ⟨e, he⟩ := Option.isSome_iff_exists.mp ha
    rw [ut_take, he, ih (fun b hb => h b (List.mem_cons_of_mem a hb))]
    simp [he]

/-- Unfolding equation for `tbd_embedding`. -/
theorem tbd_embedding_eq (ibs : IBS) (cache : ℕ → Option Emb) (aids : List ℕ) :
    tbd_embedding ibs cache aids =
      if 0 < (aids.filter (fun aid => (cache aid).isNone)).length then
        match tbd_compute_embedding ibs
            (aids.filter (fun aid => (cache aid).isNone)) with
        | none => (none, cache, 1)
        | some de =>
          (ut_take (cache_insert_all cache
              ((aids.filter (fun aid => (cache aid).isNone)).zip de)) aids,
            cache_insert_all cache
              ((aids.filter (fun aid => (cache aid).isNone)).zip de), 1)
      else (ut_take cache aids, cache, 0) := rfl

/-- Claim C5: `tbd_embedding` returns one embedding per requested id in input
order; ids already cached are returned unchanged from the cache; at most one
batched embedding computation is issued; afterwards every requested id is
cached; and a second call on the same id set returns the identical vectors
with zero additional computations. -/
theorem tbd_embedding_cache_contract (ibs : IBS) (cache : ℕ → Option Emb)
    (aids : List ℕ) :
    ∃ (r : List Emb) (cache2 : ℕ → Option Emb) (calls : ℕ),
      tbd_embedding ibs cache aids = (some r, cache2, calls) ∧
      calls ≤ 1 ∧
      r.length = aids.length ∧
      (∀ a ∈ aids, (cache2 a).isSome) ∧
      (∀ i (hi : i < aids.length) (e : Emb),
        cache (aids.get ⟨i, hi⟩) = some e →
        ∀ hr : i < r.length, r.get ⟨i, hr⟩ = e) ∧
      tbd_embedding ibs cache2 aids = (some r, cache2, 0) := by
  by_cases hd : aids.filter (fun aid => (cache aid).isNone) = []
  · have hall : ∀ a ∈ aids, (cache a).isSome := by
      intro a ha
      have hnot := List.filter_eq_nil_iff.mp hd a ha
      cases hca : cache a with
      | none => rw [hca] at hnot; simp at hnot
      | some e => simp
    have hfirst : tbd_embedding ibs cache aids =
        (some (aids.map (fun a => (cache a).getD [])), cache, 0) := by
      rw [tbd_embedding_eq, hd, ut_take_eq_map cache aids hall]
      simp
    refine ⟨aids.map (fun a => (cache a).getD []), cache, 0, hfirst, by norm_num,
      by simp, hall, ?_, hfirst⟩
    intro i hi e he hr
    rw [List.get_eq_getElem, List.getElem_map, ← List.get_eq_getElem aids ⟨i, hi⟩,
      he]
    rfl
  · have hlen0 : 0 < (aids.filter (fun aid => (cache aid).isNone)).length :=
      List.length_pos.mpr hd
    have hcomp : tbd_compute_embedding ibs
        (aids.filter (fun aid => (cache aid).isNone)) =
        some ((aids.filter (fun aid => (cache aid).isNone)).map ibs.embOf) := by
      cases hfil : aids.filter (fun aid => (cache aid).isNone) with
      | nil => exact absurd hfil hd
      | cons b rest => rw [tbd_compute_embedding]
    have hkeys : ((aids.filter (fun aid => (cache aid).isNone)).zip
        ((aids.filter (fun aid => (cache aid).isNone)).map ibs.embOf)).map
          Prod.fst = aids.filter (fun aid => (cache aid).isNone) := by
      apply List.map_fst_zip
      simp
    set dirty := aids.filter (fun aid => (cache aid).isNone) with hdirty
    set cache2 := cache_insert_all cache (dirty.zip (dirty.map ibs.embOf))
      with hcache2
    have hpres : ∀ a, (cache a).isSome → cache2 a = cache a := by
      intro a hs
      rw [hcache2]
      apply cache_insert_all_not_mem
      rw [hkeys, hdirty]
      intro hmem
      have := (List.mem_filter.mp hmem).2
      simp only [Option.isNone_iff_eq_none] at this
      rw [this] at hs
      simp at hs
    have hsome2 : ∀ a ∈ aids, (cache2 a).isSome := by
      intro a ha
      by_cases hs : (cache a).isSome
      · exact cache_insert_all_isSome_mono _ _ _ hs
      · have hnone : (cache a).isNone := by
          cases hca : cache a with
          | none => rfl
          | some e => rw [hca] at hs; simp at hs
        have hmem : a ∈ dirty := by
          rw [hdirty]
          exact List.mem_filter.mpr ⟨ha, hnone⟩
        apply cache_insert_all_isSome_of_mem
        rw [hkeys]
        exact hmem
    have hfirst : tbd_embedding ibs cache aids =
        (some (aids.map (fun a => (cache2 a).getD [])), cache2, 1) := by
      rw [tbd_embedding_eq, if_pos hlen0, hcomp, ← hdirty]
      dsimp only
      rw [← hcache2, ut_take_eq_map cache2 aids hsome2]
    have hd2 : aids.filter (fun aid => (cache2 aid).isNone) = [] := by
      rw [List.filter_eq_nil_iff]
      intro a ha
      obtain ⟨e, he⟩ := Option.isSome_iff_exists.mp (hsome2 a ha)
      simp [he]
    have hsecond : tbd_embedding ibs cache2 aids =
        (some (aids.map (fun a => (cache2 a).getD [])), cache2, 0) := by
      rw [tbd_embedding_eq, hd2, ut_take_eq_map cache2 aids hsome2]
      simp
    refine ⟨aids.map (fun a => (cache2 a).getD []), cache2, 1, hfirst,
      le_refl 1, by simp, hsome2, ?_, hsecond⟩
    intro i hi e he hr
    rw [List.get_eq_getElem, List.getElem_map, ← List.get_eq_getElem aids ⟨i, hi⟩]
    rw [hpres _ (by rw [he]; rfl), he]
    rfl

/-- A concrete controller whose model pipeline embeds annotation `a` as the
one-component vector `[a]`. -/
def ibs2 : IBS where
  nameOf := fun _ => "a"
  uuidOf := fun _ => "u"
  embOf := fun a => [(a : ℚ)]

/-- A concrete starting cache holding only id `1`, with vector `[9]`. -/
def cache0 : ℕ → Option Emb := fun a => if a = 1 then some [(9 : ℚ)] else none

/-- Witness for `tbd_embedding_cache_contract`, at the cache `{1 ↦ [9]}` and
the request `[1, 2]`: the call succeeds, id `1` keeps its cached vector `[9]`
at position 0, and the repeated call computes nothing. -/
theorem tbd_embedding_cache_contract_witness :
    ∃ (r : List Emb) (cache2 : ℕ → Option Emb) (calls : ℕ),
      tbd_embedding ibs2 cache0 [1, 2] = (some r, cache2, calls) ∧
      calls ≤ 1 ∧ r.length = 2 ∧
      (∀ hr : 0 < r.length, r.get ⟨0, hr⟩ = [(9 : ℚ)]) ∧
      tbd_embedding ibs2 cache2 [1, 2] = (some r, cache2, 0) := by
  obtain ⟨r, cache2, calls, h1, h2, h3, h4, h5, h6⟩ :=
    tbd_embedding_cache_contract ibs2 cache0 [1, 2]
  exact ⟨r, cache2, calls, h1, h2, by simpa using h3,
    fun hr => h5 0 (by norm_num) [(9 : ℚ)] (by simp [cache0]) hr, h6⟩

/-- Claim C7 (counterexample): `tbd_compute_embedding` on an empty annotation
list does not return an empty embedding list; its first statement
`ibs.get_annot_species_texts(aid_list[0])` raises an `IndexError`. -/
theorem tbd_compute_embedding_empty_counterexample :
    tbd_compute_embedding ibs2 [] = none := rfl

/-- Claim C7 (amended): `tbd_embedding` on an empty annotation list returns
an explicit empty embedding list, leaves the cache untouched and issues no
computation; `tbd_compute_embedding`, however, fails on an empty list (it
indexes `aid_list[0]` to read the species) instead of returning an empty
result. -/
theorem empty_aid_list_behavior :
    (∀ (ibs : IBS) (cache : ℕ → Option Emb),
      tbd_embedding ibs cache [] = (some [], cache, 0)) ∧
    (∀ ibs : IBS, tbd_compute_embedding ibs [] = none) :=
  ⟨fun _ _ => rfl, fun _ => rfl⟩

noncomputable section

/-- Full-extent `F.avg_pool2d`: the mean over all spatial positions of one
channel (the GeM call pools over the whole `(H, W)` window). -/
def avg_pool (ch : List ℝ) : ℝ := ch.sum / ch.length

/-- `GeM.gem` (`model.py` lines 39-40):
`avg_pool2d(x.clamp(min=eps).pow(p), (H, W)).pow(1/p)`, per channel; a
feature map is the list of its channels, each channel the list of its spatial
values.  `clamp(min=eps)` is `max eps`, and the powers are real powers of the
(clamped, hence positive) values. -/
def gem (p eps : ℝ) (x : List (List ℝ)) : List ℝ :=
  x.map (fun ch => (avg_pool (ch.map (fun v => (max eps v) ^ p))) ^ (1 / p))

/-- Eval-mode `nn.BatchNorm1d` as the per-channel affine map it denotes
(scale `γ/sqrt(var+eps)` and shift `β - mean·scale` folded into one pair per
channel); a width mismatch between the input and `num_features` raises a
`RuntimeError` (`none`). -/
def batchnorm1d (bn : List (ℝ × ℝ)) (v : List ℝ) : Option (List ℝ) :=
  if v.length = bn.length then
    some ((bn.zip v).map (fun p => p.1.1 * p.2 + p.1.2))
  else none

/-- Dot product of a weight row with the input. -/
def dot (w v : List ℝ) : ℝ := ((w.zip v).map (fun p => p.1 * p.2)).sum

/-- `nn.Linear(in, out, bias=False)` as its weight matrix (one row per output
feature); a row width differing from the input width raises a `RuntimeError`
(`none`). -/
def linear_nobias (weight : List (List ℝ)) (v : List ℝ) : Option (List ℝ) :=
  if weight.all (fun row => row.length == v.length) then
    some (weight.map (fun row => dot row v))
  else none

/-- `MiewIdNet` (`model.py` lines 49-100), per-sample state.  `backbone`
abstracts the external timm backbone (its classifier and global pool replaced
by identities), producing the final feature map; `p`/`eps` are the GeM
parameters; `bn` is the single `self.bn` module — `BatchNorm1d(fc_dim)`
overwrites `BatchNorm1d(final_in_features)` when `use_fc` is set — in
eval-mode affine form; `fcWeight` is `self.fc = Linear(final_in_features,
n_classes, bias=False)`; `final` abstracts the loss head (`ElasticArcFace`
or `Linear`, defined in the external `heads` module), taking the optional
label. -/
structure MiewIdNet where
  n_classes : ℕ
  use_fc : Bool
  fc_dim : ℕ
  loss_module : String
  p : ℝ
  eps : ℝ
  backbone : List ℝ → List (List ℝ)
  bn : List (ℝ × ℝ)
  fcWeight : List (List ℝ)
  final : List ℝ → Option ℕ → List ℝ

/-- `MiewIdNet.extract_feat` (`model.py` lines 120-131): backbone, GeM
pooling (flattened by `.view`), `self.bn`; when `use_fc` is set the source
then computes `x1 = self.fc(self.bn(self.dropout(x)))` (eval-mode dropout is
the identity) — and returns `x`, not `x1`.  The dead `x1` computation still
runs, so its shape errors propagate. -/
def extract_feat (net : MiewIdNet) (input : List ℝ) : Option (List ℝ) :=
  let pooled := gem net.p net.eps (net.backbone input)
  match batchnorm1d net.bn pooled with
  | none => none
  | some x =>
    if net.use_fc then
      let x1 := x
      match batchnorm1d net.bn x1 with
      | none => none
      | some x1 =>
        match linear_nobias net.fcWeight x1 with
        | none => none
        | some _ => some x
    else some x

/-- The two shapes a `MiewIdNet` forward call can return: the embedding
(inference) or the loss-head logits (training). -/
inductive ForwardOutput where
  | feature (v : List ℝ)
  | logits (v : List ℝ)

/-- `MiewIdNet.forward` (`model.py` lines 108-118): in eval mode return the
extracted feature; in training mode `assert label is not None`, then apply
the loss head (with the label for the margin heads, without it for the plain
linear head). -/
def forward (net : MiewIdNet) (training : Bool) (x : List ℝ) (label : Option ℕ) :
    Except String ForwardOutput :=
  match extract_feat net x with
  | none => Except.error "RuntimeError"
  | some feature =>
    if training = false then Except.ok (ForwardOutput.feature feature)
    else if label = none then Except.error "AssertionError"
    else if net.loss_module = "arcface" ∨ net.loss_module = "cosface" ∨
        net.loss_module = "adacos" then
      Except.ok (ForwardOutput.logits (net.final feature label))
    else Except.ok (ForwardOutput.logits (net.final feature none))

/-- A concrete `use_fc` net with one channel and one spatial cell: backbone
output `[[2]]`, GeM exponent 1, unit batch norm, fc weight `[[3]]`. -/
def bugNet : MiewIdNet where
  n_classes := 1
  use_fc := true
  fc_dim := 1
  loss_module := "softmax"
  p := 1
  eps := 0
  backbone := fun _ => [[2]]
  bn := [(1, 0)]
  fcWeight := [[3]]
  final := fun v _ => v

/-- A concrete net without the fc head: backbone output `[[1]]`, GeM
exponent 1, unit batch norm. -/
def net0 : MiewIdNet where
  n_classes := 1
  use_fc := false
  fc_dim := 1
  loss_module := "softmax"
  p := 1
  eps := 0
  backbone := fun _ => [[1]]
  bn := [(1, 0)]
  fcWeight := []
  final := fun v _ => v

/-- `train.py` line 70: the number of distinct identities in the training
data, `df_train['name'].nunique()`. -/
def n_train_classes (train_names : List String) : ℕ := train_names.dedup.length

/-- `train.py` lines 107-110: when the configured class count differs from
the observed one, print a warning and override the configuration, then build
the model with the (possibly overridden) count.  Returns the class count the
model is built with and whether the warning was printed. -/
def run_n_classes_setup (config_n_classes : ℕ) (train_names : List String) :
    ℕ × Bool :=
  if config_n_classes ≠ n_train_classes train_names then
    (n_train_classes train_names, true)
  else (config_n_classes, false)

end

/-- Claim C9: GeM pooling computes, per channel, the mean over spatial
positions of `clamp(x, min := eps) ^ p`, raised to `1 / p`; and with
exponent `p = 1` it equals standard average pooling on every feature map
whose entries are all at least `eps`. -/
theorem gem_p_one_is_avg_pool (eps : ℝ) (x : List (List ℝ))
    (h : ∀ ch ∈ x, ∀ v ∈ ch, eps ≤ v) :
    (∀ p : ℝ, gem p eps x = x.map (fun ch =>
      ((ch.map (fun v => (max eps v) ^ p)).sum / (ch.length : ℝ)) ^ (1 / p))) ∧
    gem 1 eps x = x.map avg_pool := by
  constructor
  · intro p
    apply List.map_congr_left
    intro ch _
    unfold avg_pool
    rw [List.length_map]
  · unfold gem
    apply List.map_congr_left
    intro ch hch
    have hmap : ch.map (fun v => (max eps v) ^ (1 : ℝ)) = ch := by
      have h2 : ∀ v ∈ ch, (max eps v) ^ (1 : ℝ) = v := by
        intro v hv
        rw [Real.rpow_one, max_eq_right (h ch hch v hv)]
      calc ch.map (fun v => (max eps v) ^ (1 : ℝ)) = ch.map id :=
            List.map_congr_left h2
        _ = ch := List.map_id ch
    rw [hmap, one_div_one, Real.rpow_one]

/-- Witness for `gem_p_one_is_avg_pool`: the feature map `[[1, 2]]` with
`eps = 0` average-pools to `[3/2]`. -/
theorem gem_p_one_is_avg_pool_witness :
    (∀ ch ∈ [[(1 : ℝ), 2]], ∀ v ∈ ch, (0 : ℝ) ≤ v) ∧
    gem 1 0 [[(1 : ℝ), 2]] = [(3 : ℝ) / 2] := by
  have h : ∀ ch ∈ [[(1 : ℝ), 2]], ∀ v ∈ ch, (0 : ℝ) ≤ v := by
    intro ch hch v hv
    simp at hch
    subst hch
    simp at hv
    rcases hv with rfl | rfl <;> norm_num
  refine ⟨h, ?_⟩
  rw [(gem_p_one_is_avg_pool 0 [[(1 : ℝ), 2]] h).2]
  simp [avg_pool]
  norm_num

/-- Claim C2: with `use_fc` enabled, `extract_feat` does not return the
dropout → batch-norm → linear value `x1`; it computes `x1` and discards it,
returning the pre-fc batch-norm output `x`.  On the concrete `bugNet`
(backbone feature `[[2]]`, fc weight `[[3]]`), the call returns `[2]` while
the computed-and-discarded fc path evaluates to `[6]`. -/
theorem extract_feat_discards_fc_path :
    bugNet.use_fc = true ∧
    extract_feat bugNet [0] = some [2] ∧
    (Option.bind (batchnorm1d bugNet.bn [2]) (linear_nobias bugNet.fcWeight)) =
      some [6] ∧
    ([2] : List ℝ) ≠ [6] := by
  refine ⟨rfl, ?_, ?_, by norm_num⟩
  · have hpool : gem bugNet.p bugNet.eps (bugNet.backbone [0]) = [2] := by
      simp [bugNet, gem, avg_pool, Real.rpow_one]
    unfold extract_feat
    rw [hpool]
    norm_num [batchnorm1d, linear_nobias, bugNet, dot]
  · norm_num [batchnorm1d, linear_nobias, bugNet, dot]

/-- Claim C6: a training-mode forward call without a label never returns a
result — when feature extraction succeeds it fails on the
`assert label is not None` contract, before any loss-head computation — while
an inference-mode (non-training) call does not require the label: its result
is the same whatever label is passed. -/
theorem forward_training_requires_label (net : MiewIdNet) (x : List ℝ) :
    (∀ out, forward net true x none ≠ Except.ok out) ∧
    (∀ f, extract_feat net x = some f →
      forward net true x none = Except.error "AssertionError") ∧
    (∀ label : Option ℕ, forward net false x label = forward net false x none) := by
  cases hef : extract_feat net x with
  | none =>
    refine ⟨fun out => ?_, fun f hf => ?_, fun label => ?_⟩
    · simp [forward, hef]
    · exact absurd hf (by simp)
    · simp [forward, hef]
  | some f =>
    refine ⟨fun out => ?_, fun g hg => ?_, fun label => ?_⟩
    · simp [forward, hef]
    · simp [forward, hef]
    · simp [forward, hef]

/-- Witness for `forward_training_requires_label`: on the concrete `net0`
feature extraction succeeds with `[1]`, and the training-mode call without a
label is exactly the assertion failure. -/
theorem forward_training_requires_label_witness :
    extract_feat net0 [0] = some [1] ∧
    forward net0 true [0] none = Except.error "AssertionError" := by
  have h : extract_feat net0 [0] = some [1] := by
    have hpool : gem net0.p net0.eps (net0.backbone [0]) = [1] := by
      simp [net0, gem, avg_pool, Real.rpow_one]
    unfold extract_feat
    rw [hpool]
    norm_num [batchnorm1d, net0]
  exact ⟨h, (forward_training_requires_label net0 [0]).2.1 [1] h⟩

/-- Claim C8: whenever the configured class count differs from the number of
distinct identities observed in the training data, the setup warns and
builds the model with the observed count; and in every case the model is
built with the observed count, never raising a fatal error for the
mismatch. -/
theorem run_overrides_n_classes (c : ℕ) (names : List String)
    (h : c ≠ n_train_classes names) :
    run_n_classes_setup c names = (n_train_classes names, true) ∧
    (∀ (c2 : ℕ) (names2 : List String),
      (run_n_classes_setup c2 names2).1 = n_train_classes names2) := by
  refine ⟨by rw [run_n_classes_setup, if_pos h], ?_⟩
  intro c2 names2
  rcases eq_or_ne c2 (n_train_classes names2) with h2 | h2
  · simp [run_n_classes_setup, h2]
  · simp [run_n_classes_setup, h2]

/-- Witness for `run_overrides_n_classes`: a configured count of `5` against
two observed identities is overridden to `2` with a warning. -/
theorem run_overrides_n_classes_witness :
    (5 ≠ n_train_classes ["a", "b"]) ∧
    run_n_classes_setup 5 ["a", "b"] = (n_train_classes ["a", "b"], true) :=
  ⟨by decide, (run_overrides_n_classes 5 ["a", "b"] (by decide)).1⟩
